import Mathlib

/-!
Verification development for the operator-facing fraud-triage console
(`frontend/src/app/page.tsx`, `useIncrementalStream`, the UIStatus provider).
JavaScript values flowing through the UI are embedded as `JVal`; JS string
operations are embedded over Lean `String`s, machine timers as explicit
state-machine steps.
-/

set_option maxHeartbeats 1000000

namespace FraudConsole

/-- Embedding of the JavaScript values the console manipulates (JSON-parseable
values; numbers are modelled as integers, which covers every value the claims
touch). Absent object properties (`undefined`) are modelled by `Option JVal`
at use sites. -/
inductive JVal where
  | null : JVal
  | bool (b : Bool) : JVal
  | num (n : Int) : JVal
  | str (s : String) : JVal
  | arr (xs : List JVal) : JVal
  | obj (kvs : List (String × JVal)) : JVal

mutual
/-- Boolean structural equality on `JVal`. -/
def beqV : JVal → JVal → Bool
  | .null, .null => true
  | .bool a, .bool b => a == b
  | .num a, .num b => a == b
  | .str a, .str b => a == b
  | .arr a, .arr b => beqVL a b
  | .obj a, .obj b => beqVO a b
  | _, _ => false

/-- Boolean equality on JSON array contents. -/
def beqVL : List JVal → List JVal → Bool
  | [], [] => true
  | x :: xs, y :: ys => beqV x y && beqVL xs ys
  | _, _ => false

/-- Boolean equality on JSON object contents. -/
def beqVO : List (String × JVal) → List (String × JVal) → Bool
  | [], [] => true
  | (k, v) :: xs, (l, w) :: ys => k == l && beqV v w && beqVO xs ys
  | _, _ => false
end

mutual
/-- Soundness of `beqV`. -/
def beqV_eq : (a b : JVal) → beqV a b = true → a = b
  | .null, .null, _ => rfl
  | .bool a, .bool b, h => by simpa [beqV] using h
  | .num a, .num b, h => by simp only [beqV, beq_iff_eq] at h; rw [h]
  | .str a, .str b, h => by simp only [beqV, beq_iff_eq] at h; rw [h]
  | .arr a, .arr b, h => by rw [beqVL_eq a b (by simpa [beqV] using h)]
  | .obj a, .obj b, h => by rw [beqVO_eq a b (by simpa [beqV] using h)]

/-- Soundness of `beqVL`. -/
def beqVL_eq : (a b : List JVal) → beqVL a b = true → a = b
  | [], [], _ => rfl
  | x :: xs, y :: ys, h => by
      simp only [beqVL, Bool.and_eq_true] at h
      rw [beqV_eq x y h.1, beqVL_eq xs ys h.2]

/-- Soundness of `beqVO`. -/
def beqVO_eq : (a b : List (String × JVal)) → beqVO a b = true → a = b
  | [], [], _ => rfl
  | (k, v) :: xs, (l, w) :: ys, h => by
      simp only [beqVO, Bool.and_eq_true, beq_iff_eq] at h
      rw [h.1.1, beqV_eq v w h.1.2, beqVO_eq xs ys h.2]
end

mutual
/-- Reflexivity of `beqV`. -/
def beqV_refl : (a : JVal) → beqV a a = true
  | .null => rfl
  | .bool a => by simp [beqV]
  | .num a => by simp [beqV]
  | .str a => by simp [beqV]
  | .arr a => by simpa [beqV] using beqVL_refl a
  | .obj a => by simpa [beqV] using beqVO_refl a

/-- Reflexivity of `beqVL`. -/
def beqVL_refl : (a : List JVal) → beqVL a a = true
  | [] => rfl
  | x :: xs => by simp [beqVL, beqV_refl x, beqVL_refl xs]

/-- Reflexivity of `beqVO`. -/
def beqVO_refl : (a : List (String × JVal)) → beqVO a a = true
  | [] => rfl
  | (k, v) :: xs => by simp [beqVO, beqV_refl v, beqVO_refl xs]
end

instance : DecidableEq JVal := fun a b =>
  decidable_of_iff (beqV a b = true)
    ⟨beqV_eq a b, fun h => h ▸ beqV_refl a⟩

/-- JavaScript truthiness of a defined value: `null`, `false`, `0` and `""`
are falsy; every array and object is truthy. -/
def jsTruthy : JVal → Bool
  | .null => false
  | .bool b => b
  | .num n => n != 0
  | .str s => s != ""
  | .arr _ => true
  | .obj _ => true

/-- Truthiness of a possibly-undefined value (`undefined` is falsy). -/
def jsTruthyOpt : Option JVal → Bool
  | none => false
  | some v => jsTruthy v

/-- JavaScript `a || b` on possibly-undefined values. -/
def jsOr (a b : Option JVal) : Option JVal :=
  if jsTruthyOpt a then a else b

/-- Escape one character the way `JSON.stringify` escapes characters inside a
string literal. -/
def jsonEscapeChar (c : Char) : String :=
  if c = '"' then "\\\""
  else if c = '\\' then "\\\\"
  else if c = '\n' then "\\n"
  else if c = '\t' then "\\t"
  else if c = '\r' then "\\r"
  else String.singleton c

/-- `JSON.stringify` escaping of the body of a string literal. -/
def jsonEscape (s : String) : String :=
  String.join (s.toList.map jsonEscapeChar)

/-- `s.replace(/c/g, r)` for a single-character pattern: every occurrence of
the character `c` is replaced by `r`. -/
def replaceChar (c : Char) (r : String) (s : String) : String :=
  String.join (s.toList.map fun x => if x = c then r else String.singleton x)

mutual
/-- Compact (no-indent) `JSON.stringify(v)` for a defined value, as the page
uses it (`JSON.stringify(val)` with no spacing argument). -/
def stringifyV : JVal → String
  | .null => "null"
  | .bool b => if b then "true" else "false"
  | .num n => toString n
  | .str s => "\"" ++ jsonEscape s ++ "\""
  | .arr xs => "[" ++ String.intercalate "," (stringifyList xs) ++ "]"
  | .obj kvs => "\x7b" ++ String.intercalate "," (stringifyFields kvs) ++ "\x7d"

/-- Stringification of the elements of a JSON array. -/
def stringifyList : List JVal → List String
  | [] => []
  | x :: xs => stringifyV x :: stringifyList xs

/-- Stringification of the fields of a JSON object. -/
def stringifyFields : List (String × JVal) → List String
  | [] => []
  | (k, v) :: kvs => ("\"" ++ jsonEscape k ++ "\":" ++ stringifyV v) :: stringifyFields kvs
end

mutual
/-- JavaScript `String(v)` conversion of a defined value: arrays join their
elements with commas (null elements become empty), objects print as
`[object Object]`. -/
def jsToString : JVal → String
  | .null => "null"
  | .bool b => if b then "true" else "false"
  | .num n => toString n
  | .str s => s
  | .arr xs => String.intercalate "," (jsToStringElems xs)
  | .obj _ => "[object Object]"

/-- `Array.prototype.join` element conversion. -/
def jsToStringElems : List JVal → List String
  | [] => []
  | x :: xs => (if x = .null then "" else jsToString x) :: jsToStringElems xs
end

/-- Property lookup in a JavaScript object literal represented as a key-value
list in insertion order, where a later binding for the same key shadows an
earlier one; `none` is JavaScript `undefined`. -/
def lookupLastG {α : Type} : List (String × α) → String → Option α
  | [], _ => none
  | (k, v) :: rest, key =>
    match lookupLastG rest key with
    | some w => some w
    | none => if k = key then some v else none

/-- JavaScript property access `v[k]` on a parsed JSON value: defined only on
objects, `undefined` (`none`) otherwise. -/
def getProp (v : JVal) (k : String) : Option JVal :=
  match v with
  | .obj kvs => lookupLastG kvs k
  | _ => none

/-! ## Incremental Reveal Engine (`useIncrementalStream`, `part_003`)

Text is embedded as `List Char`; the hook's refs and in-flight interval are
explicit state, and each interval firing is a `revealTick` step. -/

/-- The per-subscriber state of `useIncrementalStream`: the `displayed`
state value, the `prevRef` ref, and the in-flight interval (if any) carrying
its captured `base`/`added` closures and the counter `i`. -/
structure RevealState where
  displayed : List Char
  prevRef : List Char
  timer : Option (List Char × List Char × Nat)
deriving DecidableEq

/-- The effect body of `useIncrementalStream` run when `fullText` changes
(React has already executed the previous effect's cleanup, which clears any
in-flight interval). If the new text is no longer than `prevRef`, snap:
update both `prevRef` and `displayed` and leave no timer running. Otherwise
display the retained prefix `base` and start an interval at counter 0;
`prevRef` is not yet updated. -/
def revealSet (fullText : Option (List Char)) (s : RevealState) : RevealState :=
  let next := fullText.getD []
  let prev := s.prevRef
  if next.length ≤ prev.length then
    { displayed := next, prevRef := next, timer := none }
  else
    let base := next.take prev.length
    let added := next.drop prev.length
    { displayed := base, prevRef := prev, timer := some (base, added, 0) }

/-- One firing of the reveal interval: increment `i`, display
`base + added.slice(0, i)`, and on completion (`i >= added.length`) clear the
interval and commit `prevRef := next`. A tick with no interval running is a
no-op. -/
def revealTick (s : RevealState) : RevealState :=
  match s.timer with
  | none => s
  | some (base, added, i) =>
    let j := i + 1
    if added.length ≤ j then
      { displayed := base ++ added.take j, prevRef := base ++ added, timer := none }
    else
      { displayed := base ++ added.take j, prevRef := s.prevRef, timer := some (base, added, j) }

/-! ## Stream Session Manager (`page.tsx` lines 97-129, 262-305)

Push-channel handles (`EventSource` objects ever stored in `streamRef`) are
numbered by a counter; `openChans` is the set of those handles whose
underlying connection is currently open. -/

/-- Connection-handle state of the page: `streamRef` (the React ref), the
open handles among those created, a fresh-id counter, and the `sessionId`
state. -/
structure StreamConn where
  streamRef : Option Nat
  openChans : List Nat
  nextId : Nat
  sessionId : Option String
deriving DecidableEq

/-- `if (streamRef.current) streamRef.current.close()`: closing the handle
held in `streamRef`, a no-op when the ref is empty (closing an
already-closed channel is also a no-op). -/
def closeCurrent (s : StreamConn) : List Nat :=
  match s.streamRef with
  | some h => s.openChans.erase h
  | none => s.openChans

/-- `connectStreamForSession`: close any handle held in `streamRef`, open a
fresh `EventSource`, and store it in `streamRef`. -/
def connectStreamForSession (s : StreamConn) : StreamConn :=
  { streamRef := some s.nextId, openChans := s.nextId :: closeCurrent s,
    nextId := s.nextId + 1, sessionId := s.sessionId }

/-- `reconnect`: returns immediately when no `sessionId` is set; otherwise
closes any handle in `streamRef`, opens a fresh `EventSource` for the same
session id and stores it in `streamRef`. -/
def reconnect (s : StreamConn) : StreamConn :=
  match s.sessionId with
  | none => s
  | some _ =>
    { streamRef := some s.nextId, openChans := s.nextId :: closeCurrent s,
      nextId := s.nextId + 1, sessionId := s.sessionId }

/-- The `es.onerror` handler of handle `h`: `es.close()` on that handle
(the session is additionally marked disconnected, which is not tracked
here). -/
def streamError (h : Nat) (s : StreamConn) : StreamConn :=
  { s with openChans := s.openChans.erase h }

/-- `stop`: close the handle in `streamRef` and clear the ref. -/
def stopStream (s : StreamConn) : StreamConn :=
  { s with streamRef := none, openChans := closeCurrent s }

/-- The connection invariant: at most one channel is open, and any open
channel is the one held in `streamRef`. -/
def ConnInv (s : StreamConn) : Prop :=
  s.openChans.length ≤ 1 ∧ ∀ h ∈ s.openChans, s.streamRef = some h

instance (s : StreamConn) : Decidable (ConnInv s) := by
  unfold ConnInv; infer_instance

/-! ## Inbound message handling (`es.onmessage`, `page.tsx` lines 102-121)

`JSON.parse` is a platform primitive; it is passed in as a function
returning `none` exactly when parsing throws. -/

/-- `jsOr` lifted so the fallback is a defined value. -/
def jsOrV (a : Option JVal) (b : JVal) : JVal :=
  match a with
  | some v => if jsTruthy v then v else b
  | none => b

/-- The process-wide Status Broadcast record (`UIStatusState`,
`ui-status`/`part_004`); optional fields hold `none` for `undefined`, and
`caseId`/`sessionId` may hold JSON `null`. -/
structure UIStatusState where
  connected : Bool
  status : String
  currentStep : Option JVal
  totalSteps : Option JVal
  streamingAgent : Option JVal
  sessionId : Option JVal
  caseId : Option JVal
deriving DecidableEq

/-- The page state touched by the `onmessage` handler: the Reconciliation
Store value (`state`, replaced wholesale by `setState(st)`), the local
connection flag and status, the Status Broadcast, whether the channel is
open, and the document title. -/
structure PageStream where
  recon : JVal
  localConnected : Bool
  localStatus : String
  uiStatus : UIStatusState
  channelOpen : Bool
  docTitle : String
deriving DecidableEq

/-- The `es.onmessage` handler in `connectStreamForSession`: parse
`evt.data || "{}"` as JSON; on success replace the store, mark connected and
streaming, merge the Status Broadcast fields, and set the document title
when a streaming agent is named; a parse failure is swallowed by the
surrounding `try/catch` and changes nothing. -/
def onMessage (parse : String → Option JVal) (sid : String) (data : String)
    (s : PageStream) : PageStream :=
  let raw := if data = "" then "\x7b\x7d" else data
  match parse raw with
  | none => s
  | some st =>
    { recon := st
      localConnected := true
      localStatus := "Streaming"
      uiStatus :=
        { connected := true
          status := "Streaming"
          currentStep := getProp st "current_step"
          totalSteps := some (jsOrV (getProp st "total_steps") (.num 9))
          streamingAgent := getProp st "streaming_agent"
          sessionId := some (.str sid)
          caseId := some (jsOrV (getProp st "case_id") .null) }
      channelOpen := s.channelOpen
      docTitle :=
        match getProp st "streaming_agent" with
        | some v => if jsTruthy v then "Streaming · " ++ jsToString v else s.docTitle
        | none => s.docTitle }

/-! ## Status Broadcast partial update (`setUIStatus`, `part_004` lines 21-31)

`setState((prev) => ({ ...prev, ...next }))` over plain objects, embedded as
key-value lists where later entries shadow earlier ones. -/

/-- The object produced by `{ ...prev, ...next }`: the entries of `prev`
followed by the entries of `next`, so `next`'s bindings shadow `prev`'s. -/
def setUIStatusMerge (prev next : List (String × JVal)) : List (String × JVal) :=
  prev ++ next

/-! ## Alert Triage Index (`page.tsx` lines 162-251)

Alerts are duck-typed records; every field the code touches is modelled as a
possibly-absent `JVal`. -/

/-- An alert record as the page reads it. -/
structure Alert where
  alert_id : Option JVal := none
  alertId : Option JVal := none
  customer_id : Option JVal := none
  customerId : Option JVal := none
  rule_id : Option JVal := none
  ruleId : Option JVal := none
  amount : Option JVal := none
  currency : Option JVal := none
  risk_score : Option JVal := none
  queue : Option JVal := none
  priority : Option JVal := none
  status : Option JVal := none
  description : Option JVal := none
  alert_date : Option JVal := none
deriving DecidableEq

/-- The three sort keys of the alert list. -/
inductive SortKey where
  | risk | amount | date
deriving DecidableEq

/-- Numeric coercion of a field used as `(a.field || 0)` in the comparator;
non-numeric values (which JavaScript would turn into `NaN`) are outside the
claims' scope and read as 0. -/
def keyNum (v : Option JVal) : Int :=
  match jsOrV v (.num 0) with
  | .num n => n
  | _ => 0

/-- The comparator key of `filteredAlerts`'s `compare` for each sort key;
`dateMs` stands for the platform's `new Date(x || 0).getTime()`. -/
def sortKeyVal (dateMs : Option JVal → Int) : SortKey → Alert → Int
  | .risk, a => keyNum a.risk_score
  | .amount, a => keyNum a.amount
  | .date, a => dateMs a.alert_date

/-- Insert into a sorted list, placing the new element before the first
element whose key is not smaller — the position a stable sort gives a later
element. -/
def insertByKey {α : Type} (key : α → Int) (x : α) : List α → List α
  | [] => [x]
  | y :: ys => if key x ≤ key y then x :: y :: ys else y :: insertByKey key x ys

/-- Stable sort by an integer key, embedding the ES2019+ stable
`Array.prototype.sort` with comparator `(a, b) => key a - key b`. -/
def stableSortBy {α : Type} (key : α → Int) : List α → List α
  | [] => []
  | x :: xs => insertByKey key x (stableSortBy key xs)

/-- The sort step of `filteredAlerts`: `list.sort(compare)` followed by
`if (!sortAsc) list.reverse()`. -/
def filteredSort (dateMs : Option JVal → Int) (key : SortKey) (sortAsc : Bool)
    (l : List Alert) : List Alert :=
  let s := stableSortBy (sortKeyVal dateMs key) l
  if sortAsc then s else s.reverse

/-! ## View settings rehydration (`page.tsx` lines 199-212) -/

/-- The four view-setting state cells; since the rehydration effect stores
whatever JSON value it finds, each cell holds a `JVal`. -/
structure ViewState where
  alertSearch : JVal
  sortKey : JVal
  sortAsc : JVal
  alertsView : JVal
deriving DecidableEq

/-- The `useState` initial values of the four view settings. -/
def defaultViewState : ViewState :=
  { alertSearch := .str "", sortKey := .str "risk", sortAsc := .bool false,
    alertsView := .str "all" }

/-- `o && typeof o === 'object'`: truthy and of object type (arrays
included, `null` excluded by truthiness). -/
def isObjLike : JVal → Bool
  | .obj _ => true
  | .arr _ => true
  | _ => false

/-- `if (o.f != null) set(o.f)`: take the stored value unless it is absent
or `null`. -/
def nonNull (v : Option JVal) (dflt : JVal) : JVal :=
  match v with
  | some w => if w = .null then dflt else w
  | none => dflt

/-- The rehydration effect for `VIEW_STORAGE_KEY`: read the raw stored
string (`none` models `localStorage.getItem` returning `null`), parse it as
JSON (`parse r = none` models `JSON.parse` throwing, swallowed by the
`catch`), and when the result is a truthy object apply each non-null stored
field to its state cell. -/
def rehydrateView (parse : String → Option JVal) (raw : Option String)
    (s : ViewState) : ViewState :=
  match raw with
  | none => s
  | some r =>
    if r = "" then s
    else
      match parse r with
      | none => s
      | some o =>
        if isObjLike o then
          { alertSearch := nonNull (getProp o "alertSearch") s.alertSearch
            sortKey := nonNull (getProp o "sortKey") s.sortKey
            sortAsc := nonNull (getProp o "sortAsc") s.sortAsc
            alertsView := nonNull (getProp o "alertsView") s.alertsView }
        else s

/-- The enumerated sort-key values offered by the UI. -/
def enumSortKeys : List JVal := [.str "risk", .str "amount", .str "date"]

/-! ## Derived selected response (`selectedAgentResponse`,
`page.tsx` lines 333-343) -/

/-- `typeof val === 'string' ? val : (val ? JSON.stringify(val) : undefined)`. -/
def renderVal (v : JVal) : Option String :=
  match v with
  | .str s => some s
  | v => if jsTruthy v then some (stringifyV v) else none

/-- The `latest`-based fallback: render
`(state.agent_responses || []).slice(-1)[0]`. -/
def latestFallback (resps : Option (List JVal)) : Option String :=
  match (resps.getD []).getLast? with
  | some v => renderVal v
  | none => none

/-- `selectedAgentResponse`: when a log index is pinned and in bounds of the
stage-output list, render that entry; otherwise render the latest entry.
The pinned index is an `Int` since it is a JavaScript number; the access
`list[selectedLogIndex]` happens only under the bounds check, so the total
lookup's default is unreachable. -/
def selectedAgentResponse (resps : Option (List JVal)) (sel : Option Int) :
    Option String :=
  match sel with
  | none => latestFallback resps
  | some i =>
    match resps with
    | some list =>
      if 0 ≤ i ∧ i < (list.length : Int) then
        renderVal (list.getD i.toNat .null)
      else latestFallback (some list)
    | none => latestFallback none

/-! ## CSV export (`exportCSV`, `page.tsx` lines 227-251) -/

/-- `(a.description || '').replace(/\n/g, ' ')`; `none` models the
`TypeError` thrown (and swallowed by `exportCSV`'s `try`) when the
description is a truthy non-string, which has no `.replace`. -/
def descCollapsed (d : Option JVal) : Option String :=
  match jsOrV d (.str "") with
  | .str s => some (replaceChar '\n' " " s)
  | _ => none

/-- The row object `exportCSV` builds for one alert, as a key-value list in
insertion order. -/
def mkRow (a : Alert) : Option (List (String × Option JVal)) :=
  match descCollapsed a.description with
  | none => none
  | some d => some
      [("alert_id", jsOr a.alert_id a.alertId),
       ("customer_id", some (jsOrV (jsOr a.customer_id a.customerId) (.str ""))),
       ("rule_id", some (jsOrV (jsOr a.rule_id a.ruleId) (.str ""))),
       ("amount", some (jsOrV a.amount (.str ""))),
       ("currency", some (jsOrV a.currency (.str ""))),
       ("risk_score", some (jsOrV a.risk_score (.str ""))),
       ("queue", some (jsOrV a.queue (.str ""))),
       ("priority", some (jsOrV a.priority (.str ""))),
       ("status", some (jsOrV a.status (.str ""))),
       ("description", some (.str d))]

/-- The row `mkRow` yields when the description collapse succeeds, written
with a total description field. -/
def forcedRow (a : Alert) : List (String × Option JVal) :=
  [("alert_id", jsOr a.alert_id a.alertId),
   ("customer_id", some (jsOrV (jsOr a.customer_id a.customerId) (.str ""))),
   ("rule_id", some (jsOrV (jsOr a.rule_id a.ruleId) (.str ""))),
   ("amount", some (jsOrV a.amount (.str ""))),
   ("currency", some (jsOrV a.currency (.str ""))),
   ("risk_score", some (jsOrV a.risk_score (.str ""))),
   ("queue", some (jsOrV a.queue (.str ""))),
   ("priority", some (jsOrV a.priority (.str ""))),
   ("status", some (jsOrV a.status (.str ""))),
   ("description", some (.str ((descCollapsed a.description).getD "")))]

/-- `String(r[h] ?? '')`: `undefined` and `null` become the empty string. -/
def fieldText (v : Option JVal) : String :=
  match v with
  | none => ""
  | some .null => ""
  | some v => jsToString v

/-- One CSV cell: stringify, double embedded double quotes, wrap in double
quotes. -/
def csvField (v : Option JVal) : String :=
  "\"" ++ replaceChar '"' "\"\"" (fieldText v) ++ "\""

/-- `Object.keys(rows[0] || { alert_id: '', rule_id: '', amount: '',
risk_score: '' })`. -/
def csvHeaders (rows : List (List (String × Option JVal))) : List String :=
  match rows with
  | [] => ["alert_id", "rule_id", "amount", "risk_score"]
  | r :: _ => r.map Prod.fst

/-- One CSV data line: the headers' cells of a row, comma-joined. -/
def csvRowLine (headers : List String) (r : List (String × Option JVal)) :
    String :=
  String.intercalate "," (headers.map fun h => csvField ((lookupLastG r h).join))

/-- `exportCSV`'s serialization (file download aside): build a row object
per filtered alert, then emit the header line followed by one quoted line
per row, newline-joined; `none` models the swallowed exception when a row
cannot be built. -/
def exportCsv (alerts : List Alert) : Option String :=
  match alerts.mapM mkRow with
  | none => none
  | some rows =>
    let headers := csvHeaders rows
    some (String.intercalate "\n"
      (String.intercalate "," headers :: rows.map (csvRowLine headers)))

/-- The header names as the claim states them: taken from the first row's
keys, or the fixed default set when the list is empty. -/
def specHeaders (alerts : List Alert) : List String :=
  match alerts with
  | [] => ["alert_id", "rule_id", "amount", "risk_score"]
  | _ :: _ =>
      ["alert_id", "customer_id", "rule_id", "amount", "currency",
       "risk_score", "queue", "priority", "status", "description"]

/-- One data line as the claim states it: every field stringified, quoted
and quote-escaped, with the description's newlines already collapsed. -/
def specRow (a : Alert) : String :=
  String.intercalate ","
    [csvField (jsOr a.alert_id a.alertId),
     csvField (some (jsOrV (jsOr a.customer_id a.customerId) (.str ""))),
     csvField (some (jsOrV (jsOr a.rule_id a.ruleId) (.str ""))),
     csvField (some (jsOrV a.amount (.str ""))),
     csvField (some (jsOrV a.currency (.str ""))),
     csvField (some (jsOrV a.risk_score (.str ""))),
     csvField (some (jsOrV a.queue (.str ""))),
     csvField (some (jsOrV a.priority (.str ""))),
     csvField (some (jsOrV a.status (.str ""))),
     csvField (some (.str ((descCollapsed a.description).getD "")))]

/-! ## Live/historical display switch (`page.tsx` lines 394-398) -/

/-- `(state.agent_responses?.length || 1) - 1`, the index the page treats as
newest. -/
def newestIdx (len : Nat) : Int :=
  (if len = 0 then 1 else (len : Int)) - 1

/-- `selectedLogIndex != null && selectedLogIndex !==
(state.agent_responses?.length || 1) - 1`. -/
def isViewingPast (sel : Option Int) (len : Nat) : Bool :=
  match sel with
  | none => false
  | some i => decide (i ≠ newestIdx len)

/-- `displayedLatest = isViewingPast ? selectedAgentResponse :
animatedLatestRaw`. -/
def displayedLatest (sel : Option Int) (len : Nat) (selResp : Option String)
    (anim : String) : Option String :=
  if isViewingPast sel len then selResp else some anim

/-! ## Concrete records used by examples -/

/-- First alert of the stability example: id 1, risk 10. -/
def exAlertOne : Alert :=
  { alert_id := some (.num 1), risk_score := some (.num 10) }

/-- Second alert of the stability example: id 2, risk 10. -/
def exAlertTwo : Alert :=
  { alert_id := some (.num 2), risk_score := some (.num 10) }

/-- Third alert of the stability example: id 3, risk 5. -/
def exAlertThree : Alert :=
  { alert_id := some (.num 3), risk_score := some (.num 5) }

/-- The stability example list `[{id:1,risk:10},{id:2,risk:10},{id:3,risk:5}]`. -/
def exAlerts : List Alert := [exAlertOne, exAlertTwo, exAlertThree]

/-- The CSV example alert `{alert_id:"A1", description:"line1\nline2, \"quoted\""}`. -/
def exCsvAlert : Alert :=
  { alert_id := some (.str "A1"),
    description := some (.str "line1\nline2, \"quoted\"") }

/-! ## Theorems -/

/-- Under the connection invariant, closing the handle held in `streamRef`
leaves no channel open. -/
theorem closeCurrent_eq_nil (s : StreamConn) (hInv : ConnInv s) :
    closeCurrent s = [] := by
  obtain ⟨hlen, hmem⟩ := hInv
  cases hoc : s.openChans with
  | nil =>
    unfold closeCurrent
    cases s.streamRef <;> simp [hoc]
  | cons x rest =>
    have hx : s.streamRef = some x := hmem x (by rw [hoc]; exact List.mem_cons_self x rest)
    have hrest : rest = [] := by
      rw [hoc] at hlen
      simp only [List.length_cons] at hlen
      exact List.eq_nil_of_length_eq_zero (by omega)
    unfold closeCurrent
    rw [hx, hoc, hrest]
    simp

/-- C1: at most one live push-channel handle exists per session at any time.
Both `connectStreamForSession` and `reconnect` close any already-open handle
before creating the new connection; the invariant (at most one open channel,
and it is the one in `streamRef`) is preserved by connecting, reconnecting,
a transport error and `stop`, and after any effective `reconnect` (a session
id is set) exactly one open handle remains. -/
theorem streamConn_single_live_handle (s : StreamConn) (h : Nat)
    (hInv : ConnInv s) :
    ConnInv (connectStreamForSession s) ∧
    ConnInv (reconnect s) ∧
    ConnInv (streamError h s) ∧
    ConnInv (stopStream s) ∧
    (connectStreamForSession s).openChans = [s.nextId] ∧
    (s.sessionId ≠ none → (reconnect s).openChans = [s.nextId]) := by
  have hnil := closeCurrent_eq_nil s hInv
  have hconn : (connectStreamForSession s).openChans = [s.nextId] := by
    simp [connectStreamForSession, hnil]
  refine ⟨?_, ?_, ?_, ?_, hconn, ?_⟩
  · constructor
    · rw [hconn]; simp
    · intro x hx
      rw [hconn] at hx
      simp only [List.mem_singleton] at hx
      simp [connectStreamForSession, hx]
  · unfold reconnect
    cases hsid : s.sessionId with
    | none => exact hInv
    | some sid =>
      constructor
      · simp [hnil]
      · intro x hx
        simp only [hnil] at hx
        simp only [List.mem_singleton] at hx
        simp [hx]
  · constructor
    · calc (s.openChans.erase h).length ≤ s.openChans.length :=
            (List.erase_sublist h s.openChans).length_le
        _ ≤ 1 := hInv.1
    · intro x hx
      exact hInv.2 x (List.mem_of_mem_erase hx)
  · constructor
    · simp [stopStream, hnil]
    · intro x hx
      simp [stopStream, hnil] at hx
  · intro hsid
    cases hs : s.sessionId with
    | none => exact absurd hs hsid
    | some sid => simp [reconnect, hs, hnil]

/-- Witness for `streamConn_single_live_handle` at a concrete state with one
open handle. -/
theorem streamConn_single_live_handle_witness :
    (reconnect ⟨some 0, [0], 1, some "s"⟩).openChans = [1] := by
  have h := streamConn_single_live_handle ⟨some 0, [0], 1, some "s"⟩ 0 (by decide)
  exact h.2.2.2.2.2 (by decide)

/-- C3: an inbound channel message whose body fails to parse as JSON is
dropped silently: the Reconciliation Store, the connection flag, the Status
Broadcast and the open channel are all left exactly as they were. -/
theorem onMessage_parse_failure (parse : String → Option JVal)
    (sid data : String) (s : PageStream)
    (hfail : parse (if data = "" then "\x7b\x7d" else data) = none) :
    onMessage parse sid data s = s ∧
    (onMessage parse sid data s).recon = s.recon ∧
    (onMessage parse sid data s).localConnected = s.localConnected ∧
    (onMessage parse sid data s).uiStatus = s.uiStatus ∧
    (onMessage parse sid data s).channelOpen = s.channelOpen := by
  have h : onMessage parse sid data s = s := by
    simp only [onMessage, hfail]
  exact ⟨h, by rw [h], by rw [h], by rw [h], by rw [h]⟩

/-- Witness for `onMessage_parse_failure` on a concrete malformed frame. -/
theorem onMessage_parse_failure_witness :
    onMessage (fun _ => none) "sid1" "not json"
      ⟨.null, true, "Streaming",
        ⟨true, "Streaming", none, none, none, none, none⟩, true, "t"⟩ =
      ⟨.null, true, "Streaming",
        ⟨true, "Streaming", none, none, none, none, none⟩, true, "t"⟩ :=
  (onMessage_parse_failure (fun _ => none) "sid1" "not json" _ rfl).1

/-- Looking a key up in an appended object list takes the later segment's
binding when it has one and falls back to the earlier segment otherwise. -/
theorem lookupLastG_append {α : Type} (a b : List (String × α)) (k : String) :
    lookupLastG (a ++ b) k =
      match lookupLastG b k with
      | some w => some w
      | none => lookupLastG a k := by
  induction a with
  | nil =>
    simp only [List.nil_append]
    cases lookupLastG b k <;> rfl
  | cons hd tl ih =>
    obtain ⟨k1, v1⟩ := hd
    rw [List.cons_append, lookupLastG, ih]
    conv_rhs => rw [lookupLastG]
    cases hb : lookupLastG b k with
    | some w => rfl
    | none =>
      cases ht : lookupLastG tl k with
      | some w => rfl
      | none => rfl

/-- C9: `setUIStatus` merges a partial update into the prior record: every
field named in the partial takes the partial's value, every other field
keeps its prior value; the record is never replaced wholesale. -/
theorem setUIStatus_field_merge (prev next : List (String × JVal))
    (k : String) :
    (∀ v, lookupLastG next k = some v →
        lookupLastG (setUIStatusMerge prev next) k = some v) ∧
    (lookupLastG next k = none →
        lookupLastG (setUIStatusMerge prev next) k = lookupLastG prev k) := by
  constructor
  · intro v hv
    rw [setUIStatusMerge, lookupLastG_append, hv]
  · intro hv
    rw [setUIStatusMerge, lookupLastG_append, hv]

/-- Witness for `setUIStatus_field_merge`: updating `status` alone takes
the new value while `connected` keeps its prior value. -/
theorem setUIStatus_field_merge_witness :
    lookupLastG (setUIStatusMerge
        [("connected", .bool false), ("status", .str "Idle")]
        [("status", .str "Streaming")]) "status" = some (.str "Streaming") ∧
    lookupLastG (setUIStatusMerge
        [("connected", .bool false), ("status", .str "Idle")]
        [("status", .str "Streaming")]) "connected" =
      lookupLastG [("connected", .bool false), ("status", .str "Idle")]
        "connected" :=
  ⟨(setUIStatus_field_merge _ _ "status").1 _ (by decide),
   (setUIStatus_field_merge _ _ "connected").2 (by decide)⟩

/-- C8: a pinned historical (non-newest) index of the stage-output list
bypasses the reveal animation and shows the selected text statically; the
animated value is shown exactly when no index is pinned or the pinned index
is the newest one. -/
theorem historical_bypasses_animation (sel : Option Int) (len : Nat)
    (resp : Option String) (anim : String) :
    (∀ i : Int, sel = some i → 0 ≤ i → i < (len : Int) → i ≠ (len : Int) - 1 →
        displayedLatest sel len resp anim = resp) ∧
    (len ≠ 0 →
        (isViewingPast sel len = false ↔
          sel = none ∨ sel = some ((len : Int) - 1))) ∧
    (isViewingPast sel len = false →
        displayedLatest sel len resp anim = some anim) ∧
    (isViewingPast sel len = true →
        displayedLatest sel len resp anim = resp) := by
  refine ⟨?_, ?_, ?_, ?_⟩
  · intro i hsel h0 hlt hne
    have hlen : len ≠ 0 := by omega
    have hvp : isViewingPast sel len = true := by
      rw [hsel]
      simp only [isViewingPast, newestIdx, if_neg hlen, decide_eq_true_eq]
      exact hne
    simp [displayedLatest, hvp]
  · intro hlen
    cases sel with
    | none => simp [isViewingPast]
    | some i =>
      simp only [isViewingPast, newestIdx, if_neg hlen,
        decide_eq_false_iff_not, not_not, Option.some.injEq]
      constructor
      · intro hh; exact Or.inr hh
      · intro hh; rcases hh with hh | hh
        · exact absurd hh (by simp)
        · exact hh
  · intro hvp; simp [displayedLatest, hvp]
  · intro hvp; simp [displayedLatest, hvp]

/-- Witness for `historical_bypasses_animation`: index 0 of a two-entry list
is historical and displays statically. -/
theorem historical_bypasses_animation_witness :
    displayedLatest (some 0) 2 (some "old") "anim" = some "old" :=
  (historical_bypasses_animation (some 0) 2 (some "old") "anim").1 0 rfl
    (by decide) (by decide) (by decide)

/-- C10: a pinned index out of bounds of the stage-output list (negative,
too large, or with an empty or absent list) makes the derived value fall
back to the latest-entry rendering — the same value as with no pin — and
yields nothing when the list is empty or absent. The derivation is a pure
function of the store: it neither clears the pinned selection nor accesses
the list out of bounds. -/
theorem selectedAgentResponse_oob_fallback (resps : Option (List JVal))
    (i : Int)
    (h : i < 0 ∨ ((resps.getD []).length : Int) ≤ i ∨ resps = none) :
    selectedAgentResponse resps (some i) = selectedAgentResponse resps none ∧
    (resps.getD [] = [] → selectedAgentResponse resps (some i) = none) := by
  cases resps with
  | none => exact ⟨rfl, fun _ => rfl⟩
  | some list =>
    have hoob : ¬(0 ≤ i ∧ i < (list.length : Int)) := by
      rcases h with h | h | h
      · omega
      · simp only [Option.getD_some] at h; omega
      · exact absurd h (by simp)
    constructor
    · simp [selectedAgentResponse, if_neg hoob]
    · intro hnil
      simp only [Option.getD_some] at hnil
      simp [selectedAgentResponse, if_neg hoob, latestFallback, hnil]

/-- Witness for `selectedAgentResponse_oob_fallback`: pinning index 5 of a
one-entry list falls back to the live entry. -/
theorem selectedAgentResponse_oob_fallback_witness :
    selectedAgentResponse (some [.str "live"]) (some 5) = some "live" := by
  have h := selectedAgentResponse_oob_fallback (some [.str "live"]) 5
    (by decide)
  rw [h.1]
  decide

/-- On a non-string value, `renderVal` returns the compact stringification
for truthy values and nothing for falsy ones. -/
theorem renderVal_ne_str (v : JVal) (hv : ∀ s, v ≠ .str s) :
    renderVal v = if jsTruthy v then some (stringifyV v) else none := by
  cases v with
  | str s => exact absurd rfl (hv s)
  | null => rfl
  | bool b => rfl
  | num n => rfl
  | arr xs => rfl
  | obj kvs => rfl

/-- C6 counterexample: selecting historical index 0 of
`[null, "live"]` — a non-string stage payload — yields nothing at all
(`undefined`), not that payload's pretty-printed JSON form: `val ?
JSON.stringify(val) : undefined` maps the falsy payload `null` to
`undefined`, and for truthy payloads `JSON.stringify(val)` is compact, not
pretty-printed. -/
theorem selectedAgentResponse_null_payload_none :
    selectedAgentResponse (some [JVal.null, JVal.str "live"]) (some 0) =
      none := by decide

/-- C6 theorem (amended): selecting a historical index whose stage produced
a non-string payload renders the payload's compact `JSON.stringify` form
when the payload is truthy, and `undefined` when it is falsy (`null`,
`false`, `0`); the derivation itself never fails. -/
theorem selectedAgentResponse_historical_json (resps : List JVal) (n : Nat)
    (v : JVal) (h1 : n < resps.length) (hget : resps.getD n .null = v)
    (hns : ∀ s, v ≠ .str s) :
    selectedAgentResponse (some resps) (some ((n : Nat) : Int)) =
      if jsTruthy v then some (stringifyV v) else none := by
  have hcond : 0 ≤ ((n : Nat) : Int) ∧ ((n : Nat) : Int) < (resps.length : Int) := by
    constructor <;> omega
  have hl : selectedAgentResponse (some resps) (some ((n : Nat) : Int)) =
      renderVal (resps.getD n .null) := by
    simp only [selectedAgentResponse]
    rw [if_pos hcond, Int.toNat_natCast]
  rw [hl, hget]
  exact renderVal_ne_str v hns

/-- Witness for `selectedAgentResponse_historical_json`: historical index 0
holding the object payload. -/
theorem selectedAgentResponse_historical_json_witness :
    selectedAgentResponse (some [JVal.obj [("a", JVal.num 1)], JVal.str "live"])
      (some ((0 : Nat) : Int)) = some "\x7b\"a\":1\x7d" := by
  rw [selectedAgentResponse_historical_json
    [JVal.obj [("a", JVal.num 1)], JVal.str "live"] 0
    (JVal.obj [("a", JVal.num 1)]) (by decide) (by decide)
    (fun s h => JVal.noConfusion h)]
  decide

/-- C5 counterexample: rehydrating a stored view config whose `sortKey` is
the non-enumerated string `"bogus"` stores that value as-is — nothing is
revalidated against the enumerated set and the default is not restored. The
parse argument stands for `JSON.parse` applied to the stored string. -/
theorem rehydrateView_no_validation :
    (rehydrateView (fun _ => some (.obj [("sortKey", .str "bogus")]))
        (some "\x7b\"sortKey\":\"bogus\"\x7d") defaultViewState).sortKey =
        .str "bogus" ∧
    (rehydrateView (fun _ => some (.obj [("sortKey", .str "bogus")]))
        (some "\x7b\"sortKey\":\"bogus\"\x7d") defaultViewState).sortKey ∉
        enumSortKeys ∧
    (rehydrateView (fun _ => some (.obj [("sortKey", .str "bogus")]))
        (some "\x7b\"sortKey\":\"bogus\"\x7d") defaultViewState).sortKey ≠
        defaultViewState.sortKey := by
  refine ⟨by decide, by decide, by decide⟩

/-- C5 theorem (amended): rehydration never throws; an absent stored value
or malformed stored JSON leaves every default in place, and a present
non-null stored field is applied as-is, without validation against the
enumerated value sets. -/
theorem rehydrateView_failsoft (parse : String → Option JVal)
    (raw : Option String) (s : ViewState) :
    (raw = none → rehydrateView parse raw s = s) ∧
    (∀ r, raw = some r → r ≠ "" → parse r = none →
        rehydrateView parse raw s = s) ∧
    (∀ r o v, raw = some r → r ≠ "" → parse r = some o → isObjLike o = true →
        getProp o "sortKey" = some v → v ≠ .null →
        (rehydrateView parse raw s).sortKey = v) := by
  refine ⟨?_, ?_, ?_⟩
  · intro hr
    rw [hr]
    rfl
  · intro r hr hne hp
    rw [hr]
    simp [rehydrateView, hne, hp]
  · intro r o v hr hne hp hobj hkey hnn
    rw [hr]
    simp [rehydrateView, hne, hp, hobj, nonNull, hkey, hnn]

/-- Witness for `rehydrateView_failsoft`: a stored `"amount"` sort key is
applied on rehydration. -/
theorem rehydrateView_failsoft_witness :
    (rehydrateView (fun _ => some (.obj [("sortKey", .str "amount")]))
        (some "\x7b\"sortKey\":\"amount\"\x7d") defaultViewState).sortKey =
      .str "amount" :=
  (rehydrateView_failsoft (fun _ => some (.obj [("sortKey", .str "amount")]))
      (some "\x7b\"sortKey\":\"amount\"\x7d") defaultViewState).2.2
    "\x7b\"sortKey\":\"amount\"\x7d" (.obj [("sortKey", .str "amount")])
    (.str "amount") rfl (by decide) rfl (by decide) (by decide) (by decide)

/-- Filtering an insertion by key equality: the inserted element lands in
front of the kept elements exactly when its key matches, because insertion
only passes elements with strictly smaller keys. -/
theorem filter_insertByKey {α : Type} (key : α → Int) (x : α) (l : List α)
    (k : Int) :
    (insertByKey key x l).filter (fun z => key z == k) =
      if key x == k then x :: l.filter (fun z => key z == k)
      else l.filter (fun z => key z == k) := by
  induction l with
  | nil =>
    rw [insertByKey, List.filter_cons]
  | cons y ys ih =>
    rw [insertByKey]
    by_cases hxy : key x ≤ key y
    · rw [if_pos hxy, List.filter_cons]
    · rw [if_neg hxy, List.filter_cons, ih, List.filter_cons]
      by_cases hx : key x == k
      · have hyk : ¬(key y == k) = true := by
          have h1 : key x = k := by exact_mod_cast beq_iff_eq.mp hx
          have h2 : key y < key x := by omega
          simp only [beq_iff_eq]
          omega
        rw [if_pos hx]
        simp only [Bool.not_eq_true] at hyk
        rw [if_neg (by simp [hyk]), if_pos hx, if_neg (by simp [hyk])]
      · rw [if_neg hx, if_neg hx]

/-- The stable insertion sort preserves, for every key value, the original
relative order of the elements carrying that key. -/
theorem filter_stableSortBy {α : Type} (key : α → Int) (l : List α)
    (k : Int) :
    (stableSortBy key l).filter (fun z => key z == k) =
      l.filter (fun z => key z == k) := by
  induction l with
  | nil => rfl
  | cons x xs ih =>
    rw [stableSortBy, filter_insertByKey, ih, List.filter_cons]

/-- C4 counterexample: with the descending direction, the two risk-10 alerts
of `[{id:1,risk:10},{id:2,risk:10},{id:3,risk:5}]` come out in reversed
relative order — `list.sort(compare)` is stable, but the subsequent
`list.reverse()` used for the descending direction reverses equal-key runs
too, so the claim fails for the descending direction. -/
theorem filteredSort_desc_reverses_equal_keys :
    (filteredSort (fun _ => 0) .risk false exAlerts).filter
        (fun a => sortKeyVal (fun _ => 0) .risk a == 10) ≠
      exAlerts.filter (fun a => sortKeyVal (fun _ => 0) .risk a == 10) := by
  decide

/-- C4 theorem (amended): the ascending sort is stable — alerts with equal
sort keys keep their original relative order, for every list and sort key —
while the descending direction is the reversal of the stable ascending
sort, so equal-key alerts appear in reversed relative order; in particular
the example list sorted by risk ascending yields `[id:3, id:1, id:2]`. -/
theorem filteredSort_stability (dateMs : Option JVal → Int) (key : SortKey)
    (l : List Alert) (k : Int) :
    (filteredSort dateMs key true l).filter
        (fun a => sortKeyVal dateMs key a == k) =
      l.filter (fun a => sortKeyVal dateMs key a == k) ∧
    (filteredSort dateMs key false l).filter
        (fun a => sortKeyVal dateMs key a == k) =
      (l.filter (fun a => sortKeyVal dateMs key a == k)).reverse ∧
    filteredSort (fun _ => 0) .risk true exAlerts =
      [exAlertThree, exAlertOne, exAlertTwo] := by
  refine ⟨?_, ?_, by decide⟩
  · simp only [filteredSort, if_pos]
    exact filter_stableSortBy (sortKeyVal dateMs key) l k
  · rw [show filteredSort dateMs key false l =
        (stableSortBy (sortKeyVal dateMs key) l).reverse from by
      simp [filteredSort]]
    rw [List.filter_reverse, filter_stableSortBy (sortKeyVal dateMs key) l k]

/-- Taking `p.length + k` elements of `p ++ t` keeps `p` and the first `k`
elements of `t`. -/
theorem take_append_add {α : Type} (p t : List α) (k : Nat) :
    (p ++ t).take (p.length + k) = p ++ t.take k := by
  rw [List.take_append_eq_append_take,
    List.take_of_length_le (by omega), Nat.add_sub_cancel_left]

/-- Running the reveal interval `k` more times from counter `i`: while ticks
remain the displayed text grows one character per tick, and at completion
the full text is displayed, `prevRef` is committed and the interval is
cleared. -/
theorem revealTick_run (base added prev : List Char) :
    ∀ k i, i + k ≤ added.length → i < added.length →
      revealTick^[k] ⟨base ++ added.take i, prev, some (base, added, i)⟩ =
        if i + k < added.length then
          ⟨base ++ added.take (i + k), prev, some (base, added, i + k)⟩
        else ⟨base ++ added, base ++ added, none⟩ := by
  intro k
  induction k with
  | zero =>
    intro i h1 h2
    rw [Function.iterate_zero_apply, Nat.add_zero, if_pos h2]
  | succ k ih =>
    intro i h1 h2
    rw [Function.iterate_succ_apply]
    have hstep : revealTick ⟨base ++ added.take i, prev, some (base, added, i)⟩ =
        if added.length ≤ i + 1 then
          ⟨base ++ added.take (i + 1), base ++ added, none⟩
        else ⟨base ++ added.take (i + 1), prev, some (base, added, i + 1)⟩ := by
      simp only [revealTick]
    rw [hstep]
    by_cases hc : added.length ≤ i + 1
    · rw [if_pos hc]
      have hlen : i + 1 = added.length := by omega
      have htake : added.take (i + 1) = added := by
        rw [hlen, List.take_length]
      rw [htake]
      have hfix : ∀ m, revealTick^[m]
          (⟨base ++ added, base ++ added, none⟩ : RevealState) =
          ⟨base ++ added, base ++ added, none⟩ := by
        intro m
        induction m with
        | zero => rfl
        | succ m ihm => rw [Function.iterate_succ_apply]; exact ihm
      rw [hfix]
      rw [if_neg (by omega)]
    · rw [if_neg hc]
      have hrec := ih (i + 1) (by omega) (by omega)
      rw [hrec]
      have harith : i + 1 + k = i + (k + 1) := by omega
      rw [harith]

/-- C2: the incremental reveal contract. For a subscriber whose previously
seen full text is `p`: a new text no longer than `p` snaps immediately with
no timer running (zero ticks); a new text strictly extending `p` keeps the
prefix displayed and reveals one appended character per tick — after `k`
ticks exactly `p.length + k` characters show, every intermediate value is a
prefix of the new text, the full text is never shown before
`n.length - p.length` ticks, and after exactly that many ticks the full
text shows and the timer is cleared. -/
theorem useIncrementalStream_reveal (s : RevealState) (p n : List Char)
    (hp : s.prevRef = p) :
    (n.length ≤ p.length → revealSet (some n) s = ⟨n, n, none⟩) ∧
    (p <+: n → p ≠ n →
      (∀ k, k ≤ n.length - p.length →
        (revealTick^[k] (revealSet (some n) s)).displayed =
          n.take (p.length + k) ∧
        (revealTick^[k] (revealSet (some n) s)).displayed <+: n) ∧
      (∀ k, k < n.length - p.length →
        (revealTick^[k] (revealSet (some n) s)).displayed ≠ n) ∧
      (revealTick^[n.length - p.length] (revealSet (some n) s)).displayed
        = n ∧
      (revealTick^[n.length - p.length] (revealSet (some n) s)).timer
        = none) := by
  constructor
  · intro hle
    simp only [revealSet, Option.getD_some, hp]
    rw [if_pos hle]
  · intro hpre hne
    obtain ⟨t, ht⟩ := hpre
    have htne : t ≠ [] := by
      intro h0
      rw [h0, List.append_nil] at ht
      exact hne ht
    have htpos : 0 < t.length := List.length_pos.mpr htne
    have hlen : n.length = p.length + t.length := by
      rw [← ht, List.length_append]
    have hset : revealSet (some n) s = ⟨p, p, some (p, t, 0)⟩ := by
      simp only [revealSet, Option.getD_some, hp]
      rw [if_neg (by omega)]
      have hbase : n.take p.length = p := by
        rw [← ht]; exact List.take_left p t
      have hadded : n.drop p.length = t := by
        rw [← ht]; exact List.drop_left p t
      rw [hbase, hadded]
    have hrun : ∀ k, k ≤ t.length →
        revealTick^[k] (revealSet (some n) s) =
          if k < t.length then
            (⟨p ++ t.take k, p, some (p, t, k)⟩ : RevealState)
          else ⟨p ++ t, p ++ t, none⟩ := by
      intro k hk
      rw [hset]
      have h0 : (⟨p, p, some (p, t, 0)⟩ : RevealState) =
          ⟨p ++ t.take 0, p, some (p, t, 0)⟩ := by
        simp
      rw [h0]
      have hr := revealTick_run p t p k 0 (by omega) (by omega)
      simpa using hr
    have hA : ∀ k, k ≤ n.length - p.length →
        (revealTick^[k] (revealSet (some n) s)).displayed =
          n.take (p.length + k) := by
      intro k hk
      rw [hrun k (by omega)]
      by_cases hklt : k < t.length
      · rw [if_pos hklt]
        show p ++ t.take k = n.take (p.length + k)
        rw [← ht, take_append_add]
      · rw [if_neg hklt]
        show p ++ t = n.take (p.length + k)
        have hk' : k = t.length := by omega
        rw [← ht,
          show p.length + k = (p ++ t).length from by
            rw [List.length_append]; omega,
          List.take_length]
    refine ⟨fun k hk => ⟨hA k hk, ?_⟩, ?_, ?_, ?_⟩
    · rw [hA k hk]
      exact ⟨n.drop (p.length + k), List.take_append_drop _ n⟩
    · intro k hk
      rw [hA k (Nat.le_of_lt hk)]
      intro hEq
      have hlenEq := congrArg List.length hEq
      rw [List.length_take] at hlenEq
      omega
    · rw [hA (n.length - p.length) le_rfl,
        show p.length + (n.length - p.length) = n.length from by omega]
      exact List.take_length n
    · rw [hrun (n.length - p.length) (by omega), if_neg (by omega)]

/-- Witness for `useIncrementalStream_reveal`: from previous text `"abc"`,
new text `"abcde"` reaches full display after exactly two ticks. -/
theorem useIncrementalStream_reveal_witness :
    (revealTick^[2] (revealSet (some ['a', 'b', 'c', 'd', 'e'])
        ⟨['a', 'b', 'c'], ['a', 'b', 'c'], none⟩)).displayed =
      ['a', 'b', 'c', 'd', 'e'] := by
  have h := (useIncrementalStream_reveal
      ⟨['a', 'b', 'c'], ['a', 'b', 'c'], none⟩ ['a', 'b', 'c']
      ['a', 'b', 'c', 'd', 'e'] rfl).2 (by decide) (by decide)
  exact h.2.2.1

/-- When the description collapse succeeds, `mkRow` yields the forced row. -/
theorem mkRow_eq_forced (a : Alert)
    (h : (descCollapsed a.description).isSome) :
    mkRow a = some (forcedRow a) := by
  obtain ⟨d, hd⟩ := Option.isSome_iff_exists.mp h
  unfold mkRow forcedRow
  rw [hd]
  rfl

/-- Building all rows succeeds and yields the forced rows when every
description collapses. -/
theorem mapM_mkRow (alerts : List Alert)
    (h : ∀ a ∈ alerts, (descCollapsed a.description).isSome) :
    alerts.mapM mkRow = some (alerts.map forcedRow) := by
  induction alerts with
  | nil => rfl
  | cons a as ih =>
    rw [List.mapM_cons, mkRow_eq_forced a (h a (List.mem_cons_self a as)),
      ih (fun b hb => h b (List.mem_cons_of_mem a hb))]
    rfl

/-- Resolving the header lookups against a forced row gives the claim-side
row serialization. -/
theorem csvRowLine_forced (a : Alert) :
    csvRowLine ["alert_id", "customer_id", "rule_id", "amount", "currency",
      "risk_score", "queue", "priority", "status", "description"]
      (forcedRow a) = specRow a := by
  rfl

/-- C7: the CSV export emits a header row taken from the first row's keys
(a fixed default header set when the list is empty), followed by one row
per alert in which every field is stringified and double-quoted with
embedded double quotes doubled, and the description's newlines collapsed to
spaces. The hypothesis confines the claim to alerts whose description is
absent or a string — on any other truthy description the page's `.replace`
throws and the swallowed exception exports nothing. -/
theorem exportCSV_contract (alerts : List Alert)
    (h : ∀ a ∈ alerts, (descCollapsed a.description).isSome) :
    exportCsv alerts = some (String.intercalate "\n"
      (String.intercalate "," (specHeaders alerts) ::
        alerts.map specRow)) := by
  have hm : exportCsv alerts = some (String.intercalate "\n"
      (String.intercalate "," (csvHeaders (alerts.map forcedRow)) ::
        (alerts.map forcedRow).map
          (csvRowLine (csvHeaders (alerts.map forcedRow))))) := by
    unfold exportCsv
    rw [mapM_mkRow alerts h]
  rw [hm]
  cases alerts with
  | nil => rfl
  | cons a as =>
    have hh : csvHeaders ((a :: as).map forcedRow) = specHeaders (a :: as) := rfl
    rw [hh, List.map_map]
    have hmap : (a :: as).map (csvRowLine (specHeaders (a :: as)) ∘ forcedRow) =
        (a :: as).map specRow :=
      List.map_congr_left (fun b _ => csvRowLine_forced b)
    rw [hmap]

/-- Witness for `exportCSV_contract`: the single alert
`{alert_id:"A1", description:"line1\nline2, \"quoted\""}` exports with the
newline collapsed, the quotes doubled and every field quoted. -/
theorem exportCSV_contract_witness :
    exportCsv [exCsvAlert] = some
      ("alert_id,customer_id,rule_id,amount,currency,risk_score,queue,priority,status,description\n\"A1\",\"\",\"\",\"\",\"\",\"\",\"\",\"\",\"\",\"line1 line2, \"\"quoted\"\"\"") := by
  rw [exportCSV_contract [exCsvAlert] (by decide)]
  rfl

end FraudConsole
